import Mathlib

/-!
Verification of the style-guide sectionizer and response-normalization
pipeline of `src/app.py` (GrammarlyDOR).  Strings are modelled as `List Char`;
the character-class predicates (`isupper`, `strip`) are modelled with their
ASCII semantics.  The two external collaborators — the remote completion call
and the `json.loads` parser — are passed in as explicit function arguments.
-/

abbrev Str : Type := List Char

/-- Character list of a string literal. -/
def str (s : String) : Str := s.data

/-- The backslash character. -/
def backslashChar : Char := Char.ofNat 92

/-- The apostrophe (single-quote) character. -/
def aposChar : Char := Char.ofNat 39

/-- The opening curly brace character. -/
def openBrace : Char := Char.ofNat 123

/-- The closing curly brace character. -/
def closeBrace : Char := Char.ofNat 125

/-- ASCII whitespace, the character set removed by Python `str.strip()`
on ASCII input. -/
def pyIsSpace (c : Char) : Bool :=
  c = ' ' || c = '\t' || c = '\n' || c = '\r' || c = '\x0b' || c = '\x0c'

/-- A cased character, i.e. an ASCII letter (Python `str.isupper` looks at
cased characters; on ASCII these are exactly the letters). -/
def pyIsCased (c : Char) : Bool := c.isUpper || c.isLower

/-- Python `str.isupper`: at least one cased character, and every cased
character is uppercase. -/
def pyIsUpper (l : Str) : Bool :=
  l.any pyIsCased && l.all (fun c => !pyIsCased c || c.isUpper)

/-- Drop the longest suffix all of whose characters satisfy `p`. -/
def dropRightWhile (p : Char → Bool) (l : Str) : Str :=
  (l.reverse.dropWhile p).reverse

/-- Python `s.strip(chars)`-style stripping: remove the characters
satisfying `p` from both ends. -/
def stripP (p : Char → Bool) (l : Str) : Str :=
  dropRightWhile p (l.dropWhile p)

/-- Python `line.strip()` (ASCII whitespace). -/
def pyStrip (l : Str) : Str := stripP pyIsSpace l

/-- Python `s.rstrip(':')`: remove every trailing colon. -/
def rstripColons (l : Str) : Str := dropRightWhile (fun c => c = ':') l

/-- Python `text.split('\n')`: split at every newline, keeping empty
pieces (in particular `splitNL [] = [[]]`, matching Python). -/
def splitNL : Str → List Str
  | [] => [[]]
  | c :: rest =>
    if c = '\n' then [] :: splitNL rest
    else
      match splitNL rest with
      | [] => [[c]]
      | piece :: pieces => (c :: piece) :: pieces

/-- Python `'\n'.join(pieces)`. -/
def joinNL : List Str → Str
  | [] => []
  | [p] => p
  | p :: q :: rest => p ++ '\n' :: joinNL (q :: rest)

/-- Insertion-ordered dictionary holding each section's accumulated lines,
modelling the Python `dict` used by `process_style_guide`. -/
abbrev Sections : Type := List (Str × List Str)

/-- Python `d[k] = v` on an insertion-ordered dict: overwrite in place when
the key exists, otherwise append a fresh entry at the end. -/
def dictSet (k : Str) (v : List Str) : Sections → Sections
  | [] => [(k, v)]
  | (k', v') :: rest =>
    if k' = k then (k, v) :: rest else (k', v') :: dictSet k v rest

/-- Python `d[k].append(x)` rendered as an in-place update of the entry at
key `k` (in `process_style_guide` the current key is always present). -/
def dictModify (k : Str) (f : List Str → List Str) : Sections → Sections
  | [] => []
  | (k', v') :: rest =>
    if k' = k then (k', f v') :: rest else (k', v') :: dictModify k f rest

/-- Header test of `process_style_guide`:
`line.isupper() or line.strip().endswith(':')`. -/
def isHeaderLine (line : Str) : Bool :=
  pyIsUpper line || ((pyStrip line).getLast? == some ':')

/-- Section name derived from a header line: `line.strip().rstrip(':')`. -/
def headerName (line : Str) : Str := rstripColons (pyStrip line)

/-- One iteration of the scanning loop of `process_style_guide`; the state
is the current section name paired with the sections dict. -/
def processLine (st : Str × Sections) (line : Str) : Str × Sections :=
  if isHeaderLine line then
    (headerName line, dictSet (headerName line) [] st.2)
  else
    (st.1, dictModify st.1 (fun b => b ++ [line]) st.2)

/-- The scanning loop of `process_style_guide`, before the final
newline-joining of the bodies. -/
def sectionizeLines (lines : List Str) : Sections :=
  (lines.foldl processLine (str "General", [(str "General", [])])).2

/-- `StyleGuideProcessor.process_style_guide`. -/
def process_style_guide (text : Str) : List (Str × Str) :=
  (sectionizeLines (splitNL text)).map (fun kv => (kv.1, joinNL kv.2))

/-- Python `s.replace(pat, rep)` (leftmost-first, non-overlapping), with the
length of the list as recursion fuel; each step consumes at least one
character, so `l.length` fuel always suffices. -/
def replaceAllAux (pat rep : Str) : Nat → Str → Str
  | 0, l => l
  | _ + 1, [] => []
  | fuel + 1, c :: rest =>
    if pat.isPrefixOf (c :: rest) then
      rep ++ replaceAllAux pat rep fuel (rest.drop (pat.length - 1))
    else
      c :: replaceAllAux pat rep fuel rest

/-- Python `s.replace(pat, rep)`. -/
def replaceAll (pat rep l : Str) : Str := replaceAllAux pat rep l.length l

/-- Does `pat` occur as a contiguous substring of `l`? -/
def hasSub (pat : Str) : Str → Bool
  | [] => pat.isEmpty
  | c :: rest => pat.isPrefixOf (c :: rest) || hasSub pat rest

/-- The opening wrapper marker removed by `clean_text`:
`[TextBlock(text="`. -/
def tbOpenMark : Str := str "[TextBlock(text=\""

/-- The closing wrapper marker removed by `clean_text`:
`", type="text")]`. -/
def tbCloseMark : Str := str "\", type=\"text\")]"

/-- The two-character escape sequence for a newline. -/
def escNewline : Str := [backslashChar, 'n']

/-- The two-character escape sequence for a carriage return. -/
def escCarriage : Str := [backslashChar, 'r']

/-- The quote characters stripped by `text.strip('"\'')`. -/
def isQuoteChar (c : Char) : Bool := c = '"' || c = aposChar

/-- `ContentFormatter.clean_text` on string input (the source first converts
a structured payload to its textual representation; the claims concern the
string path). -/
def clean_text (text : Str) : Str :=
  let t1 := replaceAll tbOpenMark [] text
  let t2 := replaceAll tbCloseMark [] t1
  let t3 := replaceAll escNewline ['\n'] t2
  let t4 := replaceAll escCarriage ['\r'] t3
  stripP pyIsSpace (stripP isQuoteChar t4)

/-- JSON values, the result type of the external `json.loads`. -/
inductive Json : Type where
  | null : Json
  | bool (b : Bool) : Json
  | num (n : Int) : Json
  | str (s : Str) : Json
  | arr (elems : List Json) : Json
  | obj (fields : List (Str × Json)) : Json

/-- Lookup of a field in a JSON object's field list. -/
def lookupField (k : Str) : List (Str × Json) → Option Json
  | [] => none
  | (k', v) :: rest => if k' = k then some v else lookupField k rest

/-- Field lookup on a JSON value (`none` on non-objects). -/
def jsonField (k : Str) : Json → Option Json
  | .obj fields => lookupField k fields
  | _ => none

/-- Does the JSON value carry the three `AnalysisResult` fields? -/
def hasThreeFields (j : Json) : Bool :=
  (jsonField (str "overall_assessment") j).isSome &&
  (jsonField (str "style_evaluation") j).isSome &&
  (jsonField (str "suggestions") j).isSome

/-- Index of the first occurrence of `c`, if any. -/
def findIdxOf (c : Char) : Str → Option Nat
  | [] => none
  | d :: rest => if d = c then some 0 else (findIdxOf c rest).map (· + 1)

/-- The `re.search(r'\{[\s\S]*\}', text)` step of `analyze_text`: a greedy
match running from the first opening brace to the last closing brace,
provided the latter lies strictly after the former. -/
def braceSpan (l : Str) : Option Str :=
  match findIdxOf openBrace l, findIdxOf closeBrace l.reverse with
  | some i, some jr =>
    let j := l.length - 1 - jr
    if i < j then some ((l.drop i).take (j - i + 1)) else none
  | _, _ => none

/-- The tier-3 fallback object of `analyze_text`; `content` is the original
input text of the analysis call. -/
def fallback_result (content : Str) : Json :=
  Json.obj
    [(str "overall_assessment",
        Json.str (str "Analysis completed with formatting issues.")),
     (str "style_evaluation",
        Json.str (str "Content analyzed: " ++ content.take 100 ++ str "...")),
     (str "suggestions",
        Json.arr
          [Json.str (str "Consider reviewing the content for clarity"),
           Json.str (str "Ensure all key points are clearly communicated"),
           Json.str (str "Review formatting and structure")])]

/-- The three-tier response parsing inlined in `analyze_text` (the spec's
`extractJson`): direct parse, then parse of the brace span, then the
fallback object built from the original `content` argument. -/
def extract_json (loads : Str → Option Json) (content response_text : Str) :
    Json :=
  match loads response_text with
  | some v => v
  | none =>
    match braceSpan response_text with
    | some json_str =>
      match loads json_str with
      | some v => v
      | none => fallback_result content
    | none => fallback_result content

/-- An exception value raised by the remote completion call. -/
structure PyErr : Type where
  msg : Str

/-- The degraded result returned by `analyze_text` when the remote call
raises `e`. -/
def degraded_result (e : PyErr) : Json :=
  Json.obj
    [(str "overall_assessment",
        Json.str (str "Analysis error: " ++ e.msg)),
     (str "style_evaluation",
        Json.str (str "Unable to complete style evaluation")),
     (str "suggestions",
        Json.arr
          [Json.str (str "Please try again in a moment"),
           Json.str (str "Consider breaking content into smaller sections")])]

/-- The style-guide context string shared by both prompt builders:
`"\n".join(f"{k}: {v[:300]}..." for ...) if self.style_guide else
"No style guide loaded."`. -/
def style_guide_context (g : List (Str × Str)) : Str :=
  if g.isEmpty then str "No style guide loaded."
  else joinNL (g.map (fun kv => kv.1 ++ str ": " ++ kv.2.take 300 ++ str "..."))

/-- The literal prompt text of `analyze_text` before the content slot. -/
def analysisPromptA : Str := str "\n        Analyze this "

/-- The literal prompt text of `analyze_text` between the content-type slot
and the content slot (the JSON schema instructions). -/
def analysisPromptB : Str :=
  str " content and respond with ONLY a JSON object in the following structure:\n        \x7b\n            \"overall_assessment\": \"A detailed evaluation of the overall content quality and effectiveness\",\n            \"style_evaluation\": \"An analysis of the writing style, tone, and clarity\",\n            \"suggestions\": [\"Specific suggestion 1\", \"Specific suggestion 2\", \"Specific suggestion 3\"]\n        \x7d\n\n        Content to analyze:\n        "

/-- The literal prompt text of `analyze_text` between the content slot and
the style-guide slot. -/
def analysisPromptC : Str := str "\n\n        Style Guidelines:\n        "

/-- The closing literal prompt text of `analyze_text`. -/
def analysisPromptD : Str :=
  str "\n\n        Remember: Respond with only the JSON object, no additional text or explanation.\n        "

/-- The analysis prompt f-string of `analyze_text`. -/
def analysis_prompt (g : List (Str × Str)) (text content_type : Str) : Str :=
  analysisPromptA ++ content_type ++ analysisPromptB ++ text ++
    analysisPromptC ++ style_guide_context g ++ analysisPromptD

/-- The literal prompt text of `generate_text` before the content-type
slot. -/
def generationPromptA : Str := str "\n        Generate "

/-- The literal prompt text of `generate_text` between the content-type slot
and the style-guide slot. -/
def generationPromptB : Str :=
  str " content following these guidelines:\n        \n        "

/-- The literal prompt text of `generate_text` between the style-guide slot
and the second content-type slot. -/
def generationPromptC : Str :=
  str "\n        \n        Requirements:\n        - Professional and clear writing style\n        - Proper formatting for "

/-- The literal prompt text of `generate_text` between the second
content-type slot and the user-prompt slot. -/
def generationPromptD : Str :=
  str "\n        - Direct and concise communication\n        \n        Content prompt:\n        "

/-- The closing literal prompt text of `generate_text`. -/
def generationPromptE : Str := str "\n        "

/-- The generation prompt f-string of `generate_text`. -/
def generation_prompt (g : List (Str × Str)) (prompt content_type : Str) :
    Str :=
  generationPromptA ++ content_type ++ generationPromptB ++
    style_guide_context g ++ generationPromptC ++ content_type ++
    generationPromptD ++ prompt ++ generationPromptE

/-- `TextAnalyzer.analyze_text`.  The remote completion call and the JSON
parser are external collaborators, passed as functions: `remote` maps the
prompt to either the textual payload of the response or a raised error, and
`loads` is `json.loads` returning `none` on a parse failure.  A returned
`Except.error` would model an exception escaping to the caller. -/
def analyze_text (loads : Str → Option Json) (remote : Str → Except PyErr Str)
    (style_guide : List (Str × Str)) (text content_type : Str) :
    Except PyErr Json :=
  match remote (analysis_prompt style_guide text content_type) with
  | .ok response_text => .ok (extract_json loads text response_text)
  | .error e => .ok (degraded_result e)

/-- The fixed failure message returned by `generate_text` when the remote
call raises. -/
def generationFailureMsg : Str :=
  str "Content generation failed. Please try again."

/-- `TextAnalyzer.generate_text`.  As in `analyze_text`, the remote call is
an explicit function; its textual payload is passed through `clean_text`. -/
def generate_text (remote : Str → Except PyErr Str)
    (style_guide : List (Str × Str)) (prompt content_type : Str) :
    Except PyErr Str :=
  match remote (generation_prompt style_guide prompt content_type) with
  | .ok content => .ok (clean_text content)
  | .error _ => .ok generationFailureMsg

/-- The mutable per-session state of `TextAnalyzer` relevant to the claims:
the stored style guide. -/
structure AnalyzerState : Type where
  style_guide : List (Str × Str)

/-- `TextAnalyzer.load_style_guide`, with the PDF text extraction passed in
as its result (`Except.error` models an `ExtractionError` raised by
`extract_pdf_text`); the assignment to `self.style_guide` happens only after
a successful extraction, so on error the state is returned unchanged and the
error propagates. -/
def load_style_guide (st : AnalyzerState) (extracted : Except PyErr Str) :
    AnalyzerState × Except PyErr (List (Str × Str)) :=
  match extracted with
  | .error e => (st, .error e)
  | .ok text =>
    let g := process_style_guide text
    ({ st with style_guide := g }, .ok g)

/-! ## List utilities -/

theorem splitNL_ne_nil (l : Str) : splitNL l ≠ [] := by
  induction l with
  | nil => simp [splitNL]
  | cons c rest ih =>
    simp only [splitNL]
    split
    · simp
    · cases h : splitNL rest with
      | nil => simp
      | cons p ps => simp

theorem joinNL_cons (p : Str) (ps : List Str) (h : ps ≠ []) :
    joinNL (p :: ps) = p ++ '\n' :: joinNL ps := by
  cases ps with
  | nil => exact absurd rfl h
  | cons q rest => rfl

theorem joinNL_splitNL (l : Str) : joinNL (splitNL l) = l := by
  induction l with
  | nil => rfl
  | cons c rest ih =>
    simp only [splitNL]
    by_cases hc : c = '\n'
    · subst hc
      rw [if_pos rfl, joinNL_cons _ _ (splitNL_ne_nil rest), ih]
      rfl
    · simp only [if_neg hc]
      cases h : splitNL rest with
      | nil => exact absurd h (splitNL_ne_nil rest)
      | cons p ps =>
        cases ps with
        | nil =>
          have := ih
          rw [h] at this
          simpa [joinNL] using congrArg (c :: ·) this
        | cons q qs =>
          have := ih
          rw [h] at this
          rw [joinNL_cons _ _ (by simp)] at this ⊢
          simpa using congrArg (c :: ·) this

theorem dropWhile_eq_self_of_head {p : Char → Bool} {l : Str}
    (h : ∀ c, l.head? = some c → p c = false) : l.dropWhile p = l := by
  cases l with
  | nil => rfl
  | cons c rest =>
    have hc : p c = false := h c rfl
    simp [List.dropWhile, hc]

theorem head?_dropWhile {p : Char → Bool} {l : Str} {c : Char}
    (h : (l.dropWhile p).head? = some c) : p c = false := by
  induction l with
  | nil => simp [List.dropWhile] at h
  | cons d rest ih =>
    by_cases hd : p d
    · exact ih (by simpa [List.dropWhile, hd] using h)
    · simp only [List.dropWhile, hd] at h
      simp only [List.head?] at h
      cases h
      simpa using hd

theorem mem_dropWhile_of_not {p : Char → Bool} {l : Str} {c : Char}
    (hm : c ∈ l) (hc : p c = false) : c ∈ l.dropWhile p := by
  induction l with
  | nil => simp at hm
  | cons d rest ih =>
    by_cases hd : p d
    · simp only [List.dropWhile, hd, if_pos]
      rcases List.mem_cons.mp hm with h | h
      · subst h; rw [hd] at hc; cases hc
      · exact ih h
    · simpa [List.dropWhile, hd] using hm

theorem dropWhile_decomp (p : Char → Bool) (l : Str) :
    ∃ a, l = a ++ l.dropWhile p ∧ ∀ c ∈ a, p c = true := by
  refine ⟨l.takeWhile p, (List.takeWhile_append_dropWhile p l).symm, ?_⟩
  intro c hc
  exact List.mem_takeWhile_imp hc

theorem getLast?_dropRightWhile {p : Char → Bool} {l : Str} {c : Char}
    (h : (dropRightWhile p l).getLast? = some c) : p c = false := by
  unfold dropRightWhile at h
  rw [List.getLast?_reverse] at h
  exact head?_dropWhile h

theorem dropRightWhile_eq_self_of_getLast {p : Char → Bool} {l : Str}
    (h : ∀ c, l.getLast? = some c → p c = false) : dropRightWhile p l = l := by
  unfold dropRightWhile
  rw [dropWhile_eq_self_of_head, List.reverse_reverse]
  intro c hc
  exact h c (by rwa [List.head?_reverse] at hc)

theorem mem_dropRightWhile_of_not {p : Char → Bool} {l : Str} {c : Char}
    (hm : c ∈ l) (hc : p c = false) : c ∈ dropRightWhile p l := by
  unfold dropRightWhile
  rw [List.mem_reverse]
  exact mem_dropWhile_of_not (List.mem_reverse.mpr hm) hc

theorem dropRightWhile_decomp (p : Char → Bool) (l : Str) :
    ∃ b, l = dropRightWhile p l ++ b ∧ ∀ c ∈ b, p c = true := by
  refine ⟨(l.reverse.takeWhile p).reverse, ?_, ?_⟩
  · conv_lhs => rw [← List.reverse_reverse l,
      ← List.takeWhile_append_dropWhile p l.reverse]
    rw [List.reverse_append]
    rfl
  · intro c hc
    exact List.mem_takeWhile_imp (List.mem_reverse.mp hc)

theorem head?_dropRightWhile_of_ne_nil {p : Char → Bool} {l : Str}
    (h : dropRightWhile p l ≠ []) :
    (dropRightWhile p l).head? = l.head? := by
  obtain ⟨b, hb, -⟩ := dropRightWhile_decomp p l
  conv_rhs => rw [hb]
  cases hd : dropRightWhile p l with
  | nil => exact absurd hd h
  | cons x xs => simp

theorem head?_stripP {p : Char → Bool} {l : Str} {c : Char}
    (h : (stripP p l).head? = some c) : p c = false := by
  unfold stripP at h
  have hne : dropRightWhile p (l.dropWhile p) ≠ [] := by
    intro heq; rw [heq] at h; cases h
  rw [head?_dropRightWhile_of_ne_nil hne] at h
  exact head?_dropWhile h

theorem getLast?_stripP {p : Char → Bool} {l : Str} {c : Char}
    (h : (stripP p l).getLast? = some c) : p c = false :=
  getLast?_dropRightWhile h

theorem stripP_eq_self {p : Char → Bool} {l : Str}
    (hh : ∀ c, l.head? = some c → p c = false)
    (hl : ∀ c, l.getLast? = some c → p c = false) : stripP p l = l := by
  unfold stripP
  rw [dropWhile_eq_self_of_head hh, dropRightWhile_eq_self_of_getLast hl]

theorem stripP_idem (p : Char → Bool) (l : Str) :
    stripP p (stripP p l) = stripP p l :=
  stripP_eq_self (fun _ h => head?_stripP h) (fun _ h => getLast?_stripP h)

theorem mem_stripP_of_not {p : Char → Bool} {l : Str} {c : Char}
    (hm : c ∈ l) (hc : p c = false) : c ∈ stripP p l :=
  mem_dropRightWhile_of_not (mem_dropWhile_of_not hm hc) hc

theorem stripP_subset {p : Char → Bool} {l : Str} {c : Char}
    (hm : c ∈ stripP p l) : c ∈ l := by
  obtain ⟨b, hb, -⟩ := dropRightWhile_decomp p (l.dropWhile p)
  obtain ⟨a, ha, -⟩ := dropWhile_decomp p l
  rw [ha, hb]
  unfold stripP at hm
  simp [hm]

theorem stripP_decomp (p : Char → Bool) (l : Str) :
    ∃ a b, l = a ++ stripP p l ++ b := by
  obtain ⟨a, ha, -⟩ := dropWhile_decomp p l
  obtain ⟨b, hb, -⟩ := dropRightWhile_decomp p (l.dropWhile p)
  refine ⟨a, b, ?_⟩
  unfold stripP
  rw [List.append_assoc, ← hb]
  exact ha

theorem isPrefixOf_append {pat y : Str} (b : Str)
    (h : pat.isPrefixOf y = true) : pat.isPrefixOf (y ++ b) = true := by
  induction pat generalizing y with
  | nil => simp [List.isPrefixOf]
  | cons p ps ih =>
    cases y with
    | nil => simp [List.isPrefixOf] at h
    | cons c cs =>
      simp only [List.isPrefixOf, Bool.and_eq_true] at h ⊢
      exact ⟨h.1, ih h.2⟩

theorem hasSub_false_cons {pat : Str} {c : Char} {rest : Str}
    (h : hasSub pat (c :: rest) = false) : hasSub pat rest = false := by
  simp only [hasSub, Bool.or_eq_false_iff] at h
  exact h.2

theorem hasSub_false_of_append_right {pat y : Str} (a : Str)
    (h : hasSub pat (a ++ y) = false) : hasSub pat y = false := by
  induction a with
  | nil => exact h
  | cons c rest ih => exact ih (hasSub_false_cons h)

theorem hasSub_false_of_append_left {pat y : Str} (b : Str)
    (h : hasSub pat (y ++ b) = false) : hasSub pat y = false := by
  induction y with
  | nil =>
    cases b with
    | nil => exact h
    | cons c bs =>
      simp only [List.nil_append, hasSub, Bool.or_eq_false_iff] at h
      rcases pat with _ | ⟨p, ps⟩
      · simp [List.isPrefixOf] at h
      · rfl
  | cons c ys ih =>
    simp only [List.cons_append, List.append_eq, hasSub,
      Bool.or_eq_false_iff] at h ⊢
    refine ⟨?_, ih h.2⟩
    cases hpre : pat.isPrefixOf (c :: ys) with
    | false => rfl
    | true =>
      have := isPrefixOf_append b hpre
      rw [List.cons_append] at this
      rw [this] at h
      exact h.1

theorem hasSub_stripP_false {pat : Str} {p : Char → Bool} {l : Str}
    (h : hasSub pat l = false) : hasSub pat (stripP p l) = false := by
  obtain ⟨a, b, hab⟩ := stripP_decomp p l
  rw [hab, List.append_assoc] at h
  exact hasSub_false_of_append_left b (hasSub_false_of_append_right a h)

theorem replaceAllAux_eq_self {pat rep : Str} :
    ∀ (fuel : Nat) (l : Str), hasSub pat l = false →
      replaceAllAux pat rep fuel l = l := by
  intro fuel
  induction fuel with
  | zero => intro l _; rfl
  | succ n ih =>
    intro l h
    cases l with
    | nil => rfl
    | cons c rest =>
      simp only [hasSub, Bool.or_eq_false_iff] at h
      simp only [replaceAllAux, h.1, Bool.false_eq_true, if_false]
      rw [ih rest h.2]

theorem replaceAll_eq_self {pat rep l : Str} (h : hasSub pat l = false) :
    replaceAll pat rep l = l :=
  replaceAllAux_eq_self _ _ h

theorem clean_text_def (x : Str) :
    clean_text x =
      stripP pyIsSpace (stripP isQuoteChar
        (replaceAll escCarriage ['\r'] (replaceAll escNewline ['\n']
          (replaceAll tbCloseMark [] (replaceAll tbOpenMark [] x))))) := rfl

theorem clean_text_of_clean {x : Str}
    (h1 : hasSub tbOpenMark x = false) (h2 : hasSub tbCloseMark x = false)
    (h3 : hasSub escNewline x = false) (h4 : hasSub escCarriage x = false) :
    clean_text x = stripP pyIsSpace (stripP isQuoteChar x) := by
  rw [clean_text_def, replaceAll_eq_self h1, replaceAll_eq_self h2,
    replaceAll_eq_self h3, replaceAll_eq_self h4]

theorem hasSub_clean_text_false {pat x : Str}
    (h1 : hasSub tbOpenMark x = false) (h2 : hasSub tbCloseMark x = false)
    (h3 : hasSub escNewline x = false) (h4 : hasSub escCarriage x = false)
    (hp : hasSub pat x = false) : hasSub pat (clean_text x) = false := by
  rw [clean_text_of_clean h1 h2 h3 h4]
  exact hasSub_stripP_false (hasSub_stripP_false hp)

/-! ## Dictionary lemmas -/

theorem mem_keys_dictSet {k kn : Str} {v : List Str} {s : Sections}
    (h : k ∈ s.map Prod.fst) : k ∈ (dictSet kn v s).map Prod.fst := by
  induction s with
  | nil => simp at h
  | cons kv rest ih =>
    obtain ⟨k0, v0⟩ := kv
    by_cases he : k0 = kn
    · simp only [dictSet, if_pos he]
      simp only [List.map_cons, List.mem_cons] at h ⊢
      rcases h with h | h
      · exact Or.inl (by rw [h, he])
      · exact Or.inr h
    · simp only [dictSet, if_neg he]
      simp only [List.map_cons, List.mem_cons] at h ⊢
      rcases h with h | h
      · exact Or.inl h
      · exact Or.inr (ih h)

theorem dictSet_of_not_mem {kn : Str} {v : List Str} {s : Sections}
    (h : kn ∉ s.map Prod.fst) : dictSet kn v s = s ++ [(kn, v)] := by
  induction s with
  | nil => rfl
  | cons kv rest ih =>
    obtain ⟨k0, v0⟩ := kv
    simp only [List.map_cons, List.mem_cons, not_or] at h
    have hne : ¬ k0 = kn := fun he => h.1 he.symm
    simp only [dictSet, if_neg hne, List.cons_append, List.cons.injEq,
      true_and]
    exact ih h.2

theorem dictModify_keys (k : Str) (f : List Str → List Str) (s : Sections) :
    (dictModify k f s).map Prod.fst = s.map Prod.fst := by
  induction s with
  | nil => rfl
  | cons kv rest ih =>
    obtain ⟨k0, v0⟩ := kv
    by_cases he : k0 = k
    · simp [dictModify, if_pos he]
    · simp only [dictModify, if_neg he, List.map_cons, ih]

theorem dictModify_concat {k : Str} {f : List Str → List Str} {s : Sections}
    {b : List Str} (h : k ∉ s.map Prod.fst) :
    dictModify k f (s ++ [(k, b)]) = s ++ [(k, f b)] := by
  induction s with
  | nil => simp [dictModify]
  | cons kv rest ih =>
    obtain ⟨k0, v0⟩ := kv
    simp only [List.map_cons, List.mem_cons, not_or] at h
    have hne : ¬ k0 = k := fun he => h.1 he.symm
    simp only [List.cons_append, List.append_eq, dictModify, if_neg hne,
      List.cons.injEq, true_and]
    exact ih h.2

theorem mem_dictSet {kv : Str × List Str} {kn : Str} {v : List Str}
    {s : Sections} (h : kv ∈ dictSet kn v s) : kv = (kn, v) ∨ kv ∈ s := by
  induction s with
  | nil => simpa [dictSet] using h
  | cons kv0 rest ih =>
    obtain ⟨k0, v0⟩ := kv0
    by_cases he : k0 = kn
    · rw [dictSet, if_pos he] at h
      rcases List.mem_cons.mp h with h | h
      · exact Or.inl h
      · exact Or.inr (List.mem_cons_of_mem _ h)
    · rw [dictSet, if_neg he] at h
      rcases List.mem_cons.mp h with h | h
      · exact Or.inr (h ▸ List.mem_cons_self _ _)
      · rcases ih h with h | h
        · exact Or.inl h
        · exact Or.inr (List.mem_cons_of_mem _ h)

theorem mem_dictModify {kv : Str × List Str} {k : Str}
    {f : List Str → List Str} {s : Sections} (h : kv ∈ dictModify k f s) :
    kv ∈ s ∨ ∃ b, (kv.1, b) ∈ s ∧ kv.2 = f b := by
  induction s with
  | nil => simp [dictModify] at h
  | cons kv0 rest ih =>
    obtain ⟨k0, v0⟩ := kv0
    by_cases he : k0 = k
    · rw [dictModify, if_pos he] at h
      rcases List.mem_cons.mp h with h | h
      · exact Or.inr ⟨v0, by subst h; exact List.mem_cons_self _ _,
          by subst h; rfl⟩
      · exact Or.inl (List.mem_cons_of_mem _ h)
    · rw [dictModify, if_neg he] at h
      rcases List.mem_cons.mp h with h | h
      · exact Or.inl (h ▸ List.mem_cons_self _ _)
      · rcases ih h with h | ⟨b, hb, hf⟩
        · exact Or.inl (List.mem_cons_of_mem _ h)
        · exact Or.inr ⟨b, List.mem_cons_of_mem _ hb, hf⟩

/-! ## Invariants of the sectionizer scan -/

theorem foldl_keys_mono (lines : List Str) :
    ∀ (st : Str × Sections) (k : Str), k ∈ st.2.map Prod.fst →
      k ∈ ((lines.foldl processLine st).2).map Prod.fst := by
  induction lines with
  | nil => intro st k h; exact h
  | cons line rest ih =>
    intro st k h
    rw [List.foldl_cons]
    apply ih
    unfold processLine
    split
    · exact mem_keys_dictSet h
    · rwa [dictModify_keys]

theorem foldl_no_headers (lines : List Str) :
    ∀ (cur : Str) (b : List Str), (∀ l ∈ lines, isHeaderLine l = false) →
      lines.foldl processLine (cur, [(cur, b)]) = (cur, [(cur, b ++ lines)]) := by
  induction lines with
  | nil => intro cur b _; simp
  | cons line rest ih =>
    intro cur b hnone
    have hline : isHeaderLine line = false := hnone line (List.mem_cons_self _ _)
    rw [List.foldl_cons]
    have hstep : processLine (cur, [(cur, b)]) line = (cur, [(cur, b ++ [line])]) := by
      unfold processLine
      rw [hline]
      simp [dictModify]
    rw [hstep, ih cur (b ++ [line]) (fun l hl => hnone l (List.mem_cons_of_mem _ hl))]
    simp

theorem foldl_bodies_nonheader (lines : List Str) :
    ∀ (st : Str × Sections),
    (∀ kv ∈ st.2, ∀ l ∈ kv.2, isHeaderLine l = false) →
    ∀ kv ∈ (lines.foldl processLine st).2, ∀ l ∈ kv.2, isHeaderLine l = false := by
  induction lines with
  | nil => intro st h; exact h
  | cons line rest ih =>
    intro st h
    rw [List.foldl_cons]
    apply ih
    intro kv hkv l hl
    unfold processLine at hkv
    split at hkv
    · rcases mem_dictSet hkv with h' | h'
      · rw [h'] at hl; simp at hl
      · exact h kv h' l hl
    · rename_i hline
      rcases mem_dictModify hkv with h' | ⟨b, hb, hf⟩
      · exact h kv h' l hl
      · rw [hf] at hl
        rcases List.mem_append.mp hl with h' | h'
        · exact h (kv.1, b) hb l h'
        · rw [List.mem_singleton.mp h']
          exact Bool.not_eq_true _ ▸ (by simpa using hline)

theorem foldl_bodies_join (lines : List Str) :
    ∀ (front : Sections) (cur : Str) (b : List Str),
    (front.map Prod.fst).Nodup →
    cur ∉ front.map Prod.fst →
    (∀ l ∈ lines, isHeaderLine l = true →
      headerName l ∉ front.map Prod.fst ++ [cur]) →
    ((lines.filter (fun l => isHeaderLine l)).map headerName).Nodup →
    (((lines.foldl processLine (cur, front ++ [(cur, b)])).2).map Prod.snd).flatten
      = ((front ++ [(cur, b)]).map Prod.snd).flatten
          ++ lines.filter (fun l => !isHeaderLine l) := by
  induction lines with
  | nil => intro front cur b _ _ _ _; simp
  | cons line rest ih =>
    intro front cur b hnod hcur hfresh hhnod
    rw [List.foldl_cons]
    cases hline : isHeaderLine line with
    | true =>
      have hstep : processLine (cur, front ++ [(cur, b)]) line
          = (headerName line,
             (front ++ [(cur, b)]) ++ [(headerName line, [])]) := by
        unfold processLine
        rw [hline, if_pos rfl, dictSet_of_not_mem]
        intro hmem
        exact hfresh line (List.mem_cons_self _ _) hline (by
          simpa using hmem)
      rw [hstep]
      have hname_rest : ∀ l ∈ rest, isHeaderLine l = true →
          headerName l ≠ headerName line := by
        intro l hl hh
        have : ((line :: rest).filter (fun l => isHeaderLine l)).map headerName
            = headerName line
              :: ((rest.filter (fun l => isHeaderLine l)).map headerName) := by
          rw [List.filter_cons_of_pos (by simpa using hline)]
          rfl
        rw [this] at hhnod
        have hnotin := (List.nodup_cons.mp hhnod).1
        intro heq
        exact hnotin (heq ▸ List.mem_map_of_mem headerName
          (List.mem_filter.mpr ⟨hl, by simpa using hh⟩))
      have := ih ((front ++ [(cur, b)])) (headerName line) []
        (by
          rw [List.map_append]
          simp only [List.map_cons, List.map_nil]
          rw [List.nodup_append]
          refine ⟨hnod, List.nodup_singleton _, ?_⟩
          intro a ha hb
          rw [List.mem_singleton.mp hb] at ha
          exact hcur ha)
        (by
          rw [List.map_append]
          intro hmem
          exact hfresh line (List.mem_cons_self _ _) hline (by simpa using hmem))
        (by
          intro l hl hh
          have h1 := hfresh l (List.mem_cons_of_mem _ hl) hh
          have h2 := hname_rest l hl hh
          simp only [List.map_append, List.map_cons, List.map_nil,
            List.mem_append, List.mem_singleton, List.mem_cons,
            List.not_mem_nil, not_or] at h1 ⊢
          tauto)
        (by
          rw [List.filter_cons_of_pos (by simpa using hline)] at hhnod
          exact (List.nodup_cons.mp (by
            simpa using hhnod)).2)
      rw [this]
      rw [List.filter_cons_of_neg (by simp [hline])]
      simp
    | false =>
      have hstep : processLine (cur, front ++ [(cur, b)]) line
          = (cur, front ++ [(cur, b ++ [line])]) := by
        unfold processLine
        rw [hline]
        simp only [Bool.false_eq_true, if_false]
        rw [dictModify_concat hcur]
      rw [hstep]
      have := ih front cur (b ++ [line]) hnod hcur
        (fun l hl hh => hfresh l (List.mem_cons_of_mem _ hl) hh)
        (by rwa [List.filter_cons_of_neg (by simp [hline])] at hhnod)
      rw [this]
      rw [List.filter_cons_of_pos (by simp [hline])]
      simp [List.append_assoc]

/-! ## Header classification -/

theorem pyIsCased_eq_isAlpha (c : Char) : pyIsCased c = c.isAlpha := rfl

theorem pyIsSpace_not_cased {c : Char} (h : pyIsSpace c = true) :
    pyIsCased c = false := by
  simp only [pyIsSpace, Bool.or_eq_true, decide_eq_true_eq] at h
  rcases h with ((((h | h) | h) | h) | h) | h <;> subst h <;> decide

theorem cased_not_space {c : Char} (h : pyIsCased c = true) :
    pyIsSpace c = false := by
  cases hsp : pyIsSpace c
  · rfl
  · rw [pyIsSpace_not_cased hsp] at h; cases h

theorem pyIsUpper_iff (line : Str) :
    pyIsUpper line = true ↔
      ((∃ c ∈ pyStrip line, c.isAlpha = true) ∧
       ∀ c ∈ pyStrip line, c.isAlpha = true → c.isUpper = true) := by
  simp only [pyIsUpper, Bool.and_eq_true, List.any_eq_true, List.all_eq_true]
  constructor
  · rintro ⟨⟨c, hc, hcased⟩, hall⟩
    refine ⟨⟨c, mem_stripP_of_not hc (cased_not_space hcased),
      by rw [← pyIsCased_eq_isAlpha]; exact hcased⟩, ?_⟩
    intro c' hc' halpha
    have := hall c' (stripP_subset hc')
    rw [pyIsCased_eq_isAlpha, halpha] at this
    simpa using this
  · rintro ⟨⟨c, hc, halpha⟩, hall⟩
    refine ⟨⟨c, stripP_subset hc, by rw [pyIsCased_eq_isAlpha]; exact halpha⟩,
      ?_⟩
    intro c' hc'
    cases hcased : pyIsCased c'
    · simp
    · have hmem : c' ∈ pyStrip line :=
        mem_stripP_of_not hc' (cased_not_space hcased)
      have := hall c' hmem (by rw [← pyIsCased_eq_isAlpha]; exact hcased)
      simp [this]

theorem getLast?_eq_some_iff_concat {l : Str} {c : Char} :
    l.getLast? = some c ↔ ∃ t, l = t ++ [c] := by
  constructor
  · intro h
    exact ⟨l.dropLast, (List.dropLast_append_getLast? c h).symm⟩
  · rintro ⟨t, rfl⟩
    exact List.getLast?_concat t

theorem isHeaderLine_iff (line : Str) :
    isHeaderLine line = true ↔
      (((∃ c ∈ pyStrip line, c.isAlpha = true) ∧
        ∀ c ∈ pyStrip line, c.isAlpha = true → c.isUpper = true) ∨
       (∃ t, pyStrip line = t ++ [':'])) := by
  unfold isHeaderLine
  rw [Bool.or_eq_true, pyIsUpper_iff, beq_iff_eq, getLast?_eq_some_iff_concat]

/-! ## Claim theorems: the sectionizer -/

/-- C5: a line is classified as a header exactly when (a) its content,
ignoring whitespace, consists entirely of uppercase letters (non-letters do
not disqualify it, but at least one letter is required) or (b) its trimmed
content ends with a colon; on a header line the current section name becomes
the trimmed text with trailing colons removed, and a header line is never
appended to any section body. -/
theorem C5_header_classification :
    (∀ line : Str, isHeaderLine line = true ↔
      (((∃ c ∈ pyStrip line, c.isAlpha = true) ∧
        ∀ c ∈ pyStrip line, c.isAlpha = true → c.isUpper = true) ∨
       (∃ t, pyStrip line = t ++ [':']))) ∧
    (∀ (st : Str × Sections) (line : Str), isHeaderLine line = true →
      (processLine st line).1 = rstripColons (pyStrip line)) ∧
    (∀ text : Str, ∀ kv ∈ sectionizeLines (splitNL text), ∀ l ∈ kv.2,
      isHeaderLine l = false) := by
  refine ⟨isHeaderLine_iff, ?_, ?_⟩
  · intro st line h
    unfold processLine
    rw [if_pos h]
    rfl
  · intro text kv hkv l hl
    refine foldl_bodies_nonheader (splitNL text) _ ?_ kv hkv l hl
    intro kv0 hkv0 l0 hl0
    rcases List.mem_singleton.mp hkv0 with rfl
    simp at hl0

/-- C5 witness: concrete instances of all three components. -/
theorem C5_witness :
    isHeaderLine (str "RULES 101") = true ∧
    (processLine (str "General", [(str "General", [])]) (str " Tone: ")).1
      = rstripColons (pyStrip (str " Tone: ")) ∧
    isHeaderLine (str "hello") = false := by
  refine ⟨?_, ?_, ?_⟩
  · exact (C5_header_classification.1 (str "RULES 101")).mpr
      (Or.inl ⟨⟨'R', by decide, by decide⟩, by decide⟩)
  · exact C5_header_classification.2.1 _ (str " Tone: ") (by decide)
  · exact C5_header_classification.2.2 (str "hello")
      (str "General", [str "hello"]) (by decide) (str "hello") (by decide)

/-- C6: the result of `process_style_guide` always contains the key
"General", and on input with no header lines it is exactly the singleton
mapping from "General" to the full input text. -/
theorem C6_general_invariant :
    (∀ text : Str, str "General" ∈ (process_style_guide text).map Prod.fst) ∧
    (∀ text : Str, (∀ l ∈ splitNL text, isHeaderLine l = false) →
      process_style_guide text = [(str "General", text)]) := by
  constructor
  · intro text
    have hmem : str "General"
        ∈ (sectionizeLines (splitNL text)).map Prod.fst := by
      unfold sectionizeLines
      exact foldl_keys_mono (splitNL text) _ _ (by simp)
    unfold process_style_guide
    rw [List.map_map]
    simpa [Function.comp] using hmem
  · intro text hnone
    unfold process_style_guide sectionizeLines
    rw [foldl_no_headers (splitNL text) _ _ hnone]
    simp only [List.nil_append, List.map_cons, List.map_nil]
    rw [joinNL_splitNL]

/-- C6 witness: the second component at a concrete header-free input. -/
theorem C6_witness :
    process_style_guide (str "just\nsome text")
      = [(str "General", str "just\nsome text")] :=
  C6_general_invariant.2 (str "just\nsome text") (by decide)

/-- C1 (amended): when the section names derived from the header lines are
pairwise distinct and none equals "General", concatenating the accumulated
bodies of all sections in scan order (header lines removed) reconstructs
exactly the non-header lines of the input in their original order. -/
theorem C1_bodies_reconstruct (text : Str)
    (hnodup :
      (((splitNL text).filter (fun l => isHeaderLine l)).map headerName).Nodup)
    (hgen : str "General"
      ∉ ((splitNL text).filter (fun l => isHeaderLine l)).map headerName) :
    ((sectionizeLines (splitNL text)).map Prod.snd).flatten
      = (splitNL text).filter (fun l => !isHeaderLine l) := by
  unfold sectionizeLines
  have h := foldl_bodies_join (splitNL text) [] (str "General") []
    (by simp) (by simp)
    (by
      intro l hl hh hmem
      simp only [List.map_nil, List.nil_append, List.mem_singleton] at hmem
      exact hgen (hmem ▸ List.mem_map_of_mem headerName
        (List.mem_filter.mpr ⟨hl, by simpa using hh⟩)))
    hnodup
  simpa using h

/-- C1 witness: the reconstruction at a concrete input with two distinct
headers. -/
theorem C1_witness :
    ((sectionizeLines (splitNL (str "pre\nTITLE:\nbody\nNOTES\ntail"))).map
      Prod.snd).flatten
      = (splitNL (str "pre\nTITLE:\nbody\nNOTES\ntail")).filter
          (fun l => !isHeaderLine l) :=
  C1_bodies_reconstruct (str "pre\nTITLE:\nbody\nNOTES\ntail")
    (by decide) (by decide)

/-- C1 counterexample: with two header lines deriving the same section name
"A", the body accumulated under the first occurrence is discarded when the
second occurrence resets the section, so the claimed reconstruction fails. -/
theorem C1_counterexample :
    ((sectionizeLines (splitNL (str "A:\nx\nA:\ny"))).map Prod.snd).flatten
      ≠ (splitNL (str "A:\nx\nA:\ny")).filter (fun l => !isHeaderLine l) := by
  decide

/-! ## Claim theorems: clean_text -/

/-- C7 (amended): for a string free of the wrapper markers and of the
newline/carriage-return escape sequences, and whose cleaned form neither
begins nor ends with a quote character, `clean_text` is idempotent. -/
theorem C7_clean_text_idempotent (x : Str)
    (h1 : hasSub tbOpenMark x = false) (h2 : hasSub tbCloseMark x = false)
    (h3 : hasSub escNewline x = false) (h4 : hasSub escCarriage x = false)
    (hh : ∀ c, (clean_text x).head? = some c → isQuoteChar c = false)
    (hl : ∀ c, (clean_text x).getLast? = some c → isQuoteChar c = false) :
    clean_text (clean_text x) = clean_text x := by
  have e1 := hasSub_clean_text_false h1 h2 h3 h4 h1
  have e2 := hasSub_clean_text_false h1 h2 h3 h4 h2
  have e3 := hasSub_clean_text_false h1 h2 h3 h4 h3
  have e4 := hasSub_clean_text_false h1 h2 h3 h4 h4
  rw [clean_text_of_clean e1 e2 e3 e4, stripP_eq_self hh hl,
    clean_text_of_clean h1 h2 h3 h4, stripP_idem]

/-- C7 witness: idempotence at a concrete marker-free input. -/
theorem C7_witness :
    clean_text (clean_text (str "  ok  ")) = clean_text (str "  ok  ") :=
  C7_clean_text_idempotent (str "  ok  ") rfl rfl rfl rfl
    (fun c hc => by
      rw [show (clean_text (str "  ok  ")).head? = some 'o' from rfl] at hc
      injection hc with h
      subst h
      rfl)
    (fun c hc => by
      rw [show (clean_text (str "  ok  ")).getLast? = some 'k' from rfl] at hc
      injection hc with h
      subst h
      rfl)

/-- The string `" 'abc' "` enclosed in double quotes: a marker-free input on
which `clean_text` is not idempotent (the first pass peels the double quotes
and the whitespace, exposing single quotes that a second pass then peels). -/
def c7x : Str := ['"', ' ', aposChar, 'a', 'b', 'c', aposChar, ' ', '"']

/-- C7 counterexample: `c7x` contains neither wrapper marker and neither
escape sequence, yet `clean_text (clean_text c7x) ≠ clean_text c7x`. -/
theorem C7_counterexample :
    hasSub tbOpenMark c7x = false ∧ hasSub tbCloseMark c7x = false ∧
    hasSub escNewline c7x = false ∧ hasSub escCarriage c7x = false ∧
    clean_text (clean_text c7x) ≠ clean_text c7x := by
  refine ⟨rfl, rfl, rfl, rfl, ?_⟩
  decide

/-! ## Claim theorems: JSON extraction -/

theorem findIdxOf_append_of_not_mem {c : Char} {a : Str} (rest : Str)
    (h : c ∉ a) : findIdxOf c (a ++ c :: rest) = some a.length := by
  induction a with
  | nil => simp [findIdxOf]
  | cons d ds ih =>
    simp only [List.mem_cons, not_or] at h
    simp only [List.cons_append, List.append_eq, findIdxOf,
      if_neg (fun (he : d = c) => h.1 he.symm)]
    rw [ih h.2]
    rfl

theorem braceSpan_first_to_last {a m b : Str}
    (ha : openBrace ∉ a) (hb : closeBrace ∉ b) :
    braceSpan (a ++ openBrace :: (m ++ closeBrace :: b))
      = some (openBrace :: (m ++ [closeBrace])) := by
  have h1 : findIdxOf openBrace (a ++ openBrace :: (m ++ closeBrace :: b))
      = some a.length := findIdxOf_append_of_not_mem _ ha
  have hrev : (a ++ openBrace :: (m ++ closeBrace :: b)).reverse
      = b.reverse ++ closeBrace :: (m.reverse ++ openBrace :: a.reverse) := by
    simp
  have h2 : findIdxOf closeBrace
      (a ++ openBrace :: (m ++ closeBrace :: b)).reverse
      = some b.reverse.length := by
    rw [hrev]
    exact findIdxOf_append_of_not_mem _ (by simpa using hb)
  simp only [braceSpan, h1, h2]
  have hj : (a ++ openBrace :: (m ++ closeBrace :: b)).length - 1
      - b.reverse.length = a.length + m.length + 1 := by
    simp only [List.length_append, List.length_cons, List.length_reverse]
    omega
  rw [hj, if_pos (by omega), List.drop_left]
  have harith : a.length + m.length + 1 - a.length + 1 = m.length + 1 + 1 := by
    omega
  rw [harith, List.take_succ_cons, List.take_append 1]
  simp

/-- C3: `extract_json` first tries to parse the raw response text (no
`clean_text` applied); on success it returns that parse unchanged.  Only
when the direct parse fails does it parse the brace span, which runs from
the first opening brace to the last closing brace of the text, returning
that parse when it succeeds. -/
theorem C3_extract_json_tiers :
    (∀ (loads : Str → Option Json) (content response : Str) (v : Json),
      loads response = some v → extract_json loads content response = v) ∧
    (∀ (loads : Str → Option Json) (content response s : Str) (v : Json),
      loads response = none → braceSpan response = some s →
      loads s = some v → extract_json loads content response = v) ∧
    (∀ a m b : Str, openBrace ∉ a → closeBrace ∉ b →
      braceSpan (a ++ openBrace :: (m ++ closeBrace :: b))
        = some (openBrace :: (m ++ [closeBrace]))) := by
  refine ⟨?_, ?_, fun a m b ha hb => braceSpan_first_to_last ha hb⟩
  · intro loads content response v h
    simp only [extract_json, h]
  · intro loads content response s v h1 h2 h3
    simp only [extract_json, h1, h2, h3]

/-- A parser agreeing with `json.loads` on the probed inputs of the C3
witness: only the bare two-character object text parses. -/
def loadsEmptyObj : Str → Option Json :=
  fun s => if s = str "\x7b\x7d" then some (Json.obj []) else none

/-- C3 witness: tier 1 at a directly parseable response, tier 2 at a
response with surrounding noise. -/
theorem C3_witness :
    extract_json loadsEmptyObj (str "c") (str "\x7b\x7d") = Json.obj [] ∧
    extract_json loadsEmptyObj (str "c") (str "xx\x7b\x7dyy") = Json.obj [] :=
  ⟨C3_extract_json_tiers.1 loadsEmptyObj (str "c") (str "\x7b\x7d")
      (Json.obj []) rfl,
   C3_extract_json_tiers.2.1 loadsEmptyObj (str "c") (str "xx\x7b\x7dyy")
      (str "\x7b\x7d") (Json.obj []) rfl rfl rfl⟩

/-- C4: when both the direct parse and the brace-span parse fail,
`extract_json` returns the fallback object: a fixed "completed with
formatting issues" assessment, a style evaluation embedding the first 100
characters of the original analysis input followed by an ellipsis, and
three fixed generic suggestions. -/
theorem extract_json_fallback_eq {loads : Str → Option Json}
    {content response : Str} (h1 : loads response = none)
    (h2 : ∀ s, braceSpan response = some s → loads s = none) :
    extract_json loads content response = fallback_result content := by
  cases hb : braceSpan response with
  | none => simp only [extract_json, h1, hb]
  | some s => simp only [extract_json, h1, hb, h2 s hb]

theorem C4_fallback (loads : Str → Option Json) (content response : Str)
    (h1 : loads response = none)
    (h2 : ∀ s, braceSpan response = some s → loads s = none) :
    extract_json loads content response = fallback_result content ∧
    jsonField (str "overall_assessment") (fallback_result content)
      = some (Json.str (str "Analysis completed with formatting issues.")) ∧
    jsonField (str "style_evaluation") (fallback_result content)
      = some (Json.str
          (str "Content analyzed: " ++ content.take 100 ++ str "...")) ∧
    jsonField (str "suggestions") (fallback_result content)
      = some (Json.arr
          [Json.str (str "Consider reviewing the content for clarity"),
           Json.str (str "Ensure all key points are clearly communicated"),
           Json.str (str "Review formatting and structure")]) := by
  exact ⟨extract_json_fallback_eq h1 h2, rfl, rfl, rfl⟩

/-- The everywhere-failing parser, agreeing with `json.loads` on every
input probed by the C4 witness (none of them is valid JSON). -/
def loadsNone : Str → Option Json := fun _ => none

/-- C4 witness: the fallback at a brace-free unparseable response; the
style evaluation embeds the original content argument, not the response. -/
theorem C4_witness :
    extract_json loadsNone (str "hello") (str "no json here at all")
      = fallback_result (str "hello") :=
  (C4_fallback loadsNone (str "hello") (str "no json here at all") rfl
    (fun s hs => by
      rw [show braceSpan (str "no json here at all") = none from rfl] at hs
      cases hs)).1

/-! ## Claim theorems: the service operations -/

/-- C2 (amended): `analyze_text` and `generate_text` never raise — they
return a value for every input.  The value of `generate_text` is a string;
the value of `analyze_text` carries the three `AnalysisResult` fields on the
remote-error path and on the tier-3 fallback path, while a successful
tier-1/tier-2 parse is returned as-is and need not have those fields. -/
theorem C2_total_functions :
    (∀ (loads : Str → Option Json) (remote : Str → Except PyErr Str)
        (g : List (Str × Str)) (text ct : Str),
      ∃ v, analyze_text loads remote g text ct = .ok v) ∧
    (∀ (remote : Str → Except PyErr Str) (g : List (Str × Str))
        (prompt ct : Str),
      ∃ s, generate_text remote g prompt ct = .ok s) ∧
    (∀ (loads : Str → Option Json) (remote : Str → Except PyErr Str)
        (g : List (Str × Str)) (text ct : Str) (e : PyErr),
      remote (analysis_prompt g text ct) = .error e →
      analyze_text loads remote g text ct = .ok (degraded_result e) ∧
      hasThreeFields (degraded_result e) = true) ∧
    (∀ (loads : Str → Option Json) (remote : Str → Except PyErr Str)
        (g : List (Str × Str)) (text ct resp : Str),
      remote (analysis_prompt g text ct) = .ok resp →
      loads resp = none → (∀ s, braceSpan resp = some s → loads s = none) →
      analyze_text loads remote g text ct = .ok (fallback_result text) ∧
      hasThreeFields (fallback_result text) = true) := by
  refine ⟨?_, ?_, ?_, ?_⟩
  · intro loads remote g text ct
    cases hr : remote (analysis_prompt g text ct) with
    | ok r =>
      exact ⟨extract_json loads text r, by simp only [analyze_text, hr]⟩
    | error e => exact ⟨degraded_result e, by simp only [analyze_text, hr]⟩
  · intro remote g prompt ct
    cases hr : remote (generation_prompt g prompt ct) with
    | ok r => exact ⟨clean_text r, by simp only [generate_text, hr]⟩
    | error e => exact ⟨generationFailureMsg, by simp only [generate_text, hr]⟩
  · intro loads remote g text ct e h
    exact ⟨by simp only [analyze_text, h], rfl⟩
  · intro loads remote g text ct resp h hload hbrace
    exact ⟨by simp only [analyze_text, h,
      extract_json_fallback_eq hload hbrace], rfl⟩

/-- A parser agreeing with `json.loads` on the probed input: the text `3`
parses to the JSON number 3. -/
def loadsNumThree : Str → Option Json :=
  fun s => if s = str "3" then some (Json.num 3) else none

/-- A remote call answering every prompt with the bare text `3`. -/
def remoteNumThree : Str → Except PyErr Str := fun _ => .ok (str "3")

/-- C2 counterexample: when the model's response text is `3` (valid JSON),
`analyze_text` returns the bare JSON number 3 via tier 1 — a value that is
not a record with the three `AnalysisResult` fields. -/
theorem C2_counterexample :
    analyze_text loadsNumThree remoteNumThree [] (str "t") (str "Email")
      = .ok (Json.num 3) ∧
    hasThreeFields (Json.num 3) = false :=
  ⟨rfl, rfl⟩

/-- A remote call raising an error with message `boom` on every prompt. -/
def remoteBoom : Str → Except PyErr Str := fun _ => .error ⟨str "boom"⟩

/-- C2 witness: totality and the remote-error shape at concrete inputs. -/
theorem C2_witness :
    (∃ v, analyze_text loadsNone remoteBoom [] (str "t") (str "Email")
      = .ok v) ∧
    analyze_text loadsNone remoteBoom [] (str "t") (str "Email")
      = .ok (degraded_result ⟨str "boom"⟩) :=
  ⟨C2_total_functions.1 loadsNone remoteBoom [] (str "t") (str "Email"),
   (C2_total_functions.2.2.1 loadsNone remoteBoom [] (str "t") (str "Email")
      ⟨str "boom"⟩ rfl).1⟩

/-- C8: when the remote call raises during analysis, `analyze_text` returns
the degraded result whose overall assessment embeds the error message and
whose other fields are fixed advisory text; when it raises during
generation, `generate_text` returns the fixed failure string. -/
theorem C8_remote_error_fallbacks :
    (∀ (loads : Str → Option Json) (remote : Str → Except PyErr Str)
        (g : List (Str × Str)) (text ct : Str) (e : PyErr),
      remote (analysis_prompt g text ct) = .error e →
      analyze_text loads remote g text ct = .ok (degraded_result e) ∧
      jsonField (str "overall_assessment") (degraded_result e)
        = some (Json.str (str "Analysis error: " ++ e.msg)) ∧
      (∃ pre, str "Analysis error: " ++ e.msg = pre ++ e.msg) ∧
      jsonField (str "style_evaluation") (degraded_result e)
        = some (Json.str (str "Unable to complete style evaluation")) ∧
      jsonField (str "suggestions") (degraded_result e)
        = some (Json.arr
            [Json.str (str "Please try again in a moment"),
             Json.str (str "Consider breaking content into smaller sections")])) ∧
    (∀ (remote : Str → Except PyErr Str) (g : List (Str × Str))
        (prompt ct : Str) (e : PyErr),
      remote (generation_prompt g prompt ct) = .error e →
      generate_text remote g prompt ct
        = .ok (str "Content generation failed. Please try again.")) := by
  constructor
  · intro loads remote g text ct e h
    exact ⟨by simp only [analyze_text, h], rfl,
      ⟨str "Analysis error: ", rfl⟩, rfl, rfl⟩
  · intro remote g prompt ct e h
    simp only [generate_text, h]
    rfl

/-- C8 witness: both degraded results at a concrete injected error. -/
theorem C8_witness :
    analyze_text loadsNone remoteBoom [] (str "t") (str "Email")
      = .ok (degraded_result ⟨str "boom"⟩) ∧
    generate_text remoteBoom [] (str "p") (str "Email")
      = .ok (str "Content generation failed. Please try again.") :=
  ⟨(C8_remote_error_fallbacks.1 loadsNone remoteBoom [] (str "t")
      (str "Email") ⟨str "boom"⟩ rfl).1,
   C8_remote_error_fallbacks.2 remoteBoom [] (str "p") (str "Email")
      ⟨str "boom"⟩ rfl⟩

/-- C9: in both prompts the style-guide context renders as the placeholder
"No style guide loaded." when the stored guide is empty, and otherwise as
one `name: first-300-chars...` line per section joined by newlines, the
ellipsis being appended even for bodies shorter than 300 characters. -/
theorem C9_style_context_rendering :
    (∀ g : List (Str × Str), g = [] →
      style_guide_context g = str "No style guide loaded.") ∧
    (∀ g : List (Str × Str), g ≠ [] →
      style_guide_context g
        = joinNL (g.map
            (fun kv => kv.1 ++ str ": " ++ kv.2.take 300 ++ str "..."))) ∧
    (∀ (g : List (Str × Str)) (kv : Str × Str), kv ∈ g →
      ∃ pre, kv.1 ++ str ": " ++ kv.2.take 300 ++ str "..."
        = pre ++ str "...") ∧
    (∀ (g : List (Str × Str)) (text ct : Str), ∃ A B,
      analysis_prompt g text ct = A ++ style_guide_context g ++ B) ∧
    (∀ (g : List (Str × Str)) (prompt ct : Str), ∃ A B,
      generation_prompt g prompt ct = A ++ style_guide_context g ++ B) := by
  refine ⟨?_, ?_, ?_, ?_, ?_⟩
  · rintro g rfl
    rfl
  · intro g hg
    unfold style_guide_context
    rw [if_neg (by simpa [List.isEmpty_iff] using hg)]
  · intro g kv _
    exact ⟨kv.1 ++ str ": " ++ kv.2.take 300, rfl⟩
  · intro g text ct
    exact ⟨analysisPromptA ++ ct ++ analysisPromptB ++ text
      ++ analysisPromptC, analysisPromptD, rfl⟩
  · intro g prompt ct
    refine ⟨generationPromptA ++ ct ++ generationPromptB,
      generationPromptC ++ ct ++ generationPromptD ++ prompt
        ++ generationPromptE, ?_⟩
    simp only [generation_prompt, List.append_assoc]

/-- C9 witness: the placeholder on the empty guide and the rendering (with
its unconditional ellipsis) on a one-section guide with a short body. -/
theorem C9_witness :
    style_guide_context ([] : List (Str × Str))
      = str "No style guide loaded." ∧
    style_guide_context [(str "Tone", str "warm")]
      = joinNL ([(str "Tone", str "warm")].map
          (fun kv => kv.1 ++ str ": " ++ kv.2.take 300 ++ str "...")) :=
  ⟨C9_style_context_rendering.1 [] rfl,
   C9_style_context_rendering.2.1 [(str "Tone", str "warm")] (by simp)⟩

/-- C10: `load_style_guide` replaces the stored style guide wholesale with
the sectionized text of the newly extracted document (keys absent from the
new guide are absent afterwards, whatever the old guide held), and when
extraction raises, the error propagates while the stored guide is left
unchanged. -/
theorem C10_load_style_guide :
    (∀ (st : AnalyzerState) (e : PyErr),
      load_style_guide st (.error e) = (st, .error e)) ∧
    (∀ (st : AnalyzerState) (text : Str),
      (load_style_guide st (.ok text)).1.style_guide
        = process_style_guide text ∧
      (load_style_guide st (.ok text)).2 = .ok (process_style_guide text) ∧
      ∀ k : Str, k ∉ (process_style_guide text).map Prod.fst →
        k ∉ ((load_style_guide st (.ok text)).1.style_guide).map Prod.fst) :=
  ⟨fun _ _ => rfl, fun _ _ => ⟨rfl, rfl, fun _ hk => hk⟩⟩

/-- C10 witness: a failing extraction leaves the stored guide untouched,
and a successful reload drops the old guide's section. -/
theorem C10_witness :
    load_style_guide ⟨[(str "Old", str "x")]⟩ (.error ⟨str "bad pdf"⟩)
      = (⟨[(str "Old", str "x")]⟩, .error ⟨str "bad pdf"⟩) ∧
    (load_style_guide ⟨[(str "Old", str "x")]⟩
        (.ok (str "NEW:\nbody"))).1.style_guide
      = process_style_guide (str "NEW:\nbody") ∧
    str "Old" ∉ ((load_style_guide ⟨[(str "Old", str "x")]⟩
        (.ok (str "NEW:\nbody"))).1.style_guide).map Prod.fst :=
  ⟨C10_load_style_guide.1 ⟨[(str "Old", str "x")]⟩ ⟨str "bad pdf"⟩,
   (C10_load_style_guide.2 ⟨[(str "Old", str "x")]⟩ (str "NEW:\nbody")).1,
   (C10_load_style_guide.2 ⟨[(str "Old", str "x")]⟩
      (str "NEW:\nbody")).2.2 (str "Old") (by decide)⟩

example : process_style_guide (str "hello") = [(str "General", str "hello")] := by
  decide

example : process_style_guide (str "x\nTITLE:\ny") =
    [(str "General", str "x"), (str "TITLE", str "y")] := by decide

example : clean_text (str "  \"hi\"  ") = str "\"hi\"" := by decide

example : clean_text (str "\"  hi  \"") = str "hi" := by decide

example : braceSpan (str "ab\x7bc\x7dd") = some (str "\x7bc\x7d") := by decide
